import Mathlib

/-!
Verification of the `ai-code-typer` repair scripts.

The repository holds three one-off Python scripts:

* `check_braces.py` — scans a file line by line, character by character,
  pushing the 1-based position of every opening brace on a stack, popping on
  every closing brace when the stack is non-empty, reporting an
  "extra closing brace" when it is empty, and finally reporting every
  position left on the stack as an unclosed brace (printing
  "Braces are balanced." exactly when the final stack is empty);
* `fix_app_context.py` — replaces a known broken block in a file by literal
  substring match, writing the file only when the block is found;
* `restore_app_context.py` — reads fixed line numbers 295–297 (1-based) of a
  file and splices in a replacement block when the context matches.

Each script is embedded below as a pure function over the file contents it
reads; the printed report of `check_braces.py` is represented as a `Report`
structure, and the conditional file writes of the two patch scripts as
`Option` results (`none` = the script raised before writing).
-/

namespace CheckBraces

/-- A 1-based (line, column) source position, as pushed by
`stack.append((i + 1, j + 1))` in `check_braces.py`. -/
structure Position where
  line : Nat
  col : Nat
deriving DecidableEq, Repr

/-- The mutable state of the scan in `check_braces.py`: the brace stack and
the sequence of "Extra closing brace" findings printed so far, in order. -/
structure ScanState where
  stack : List Position
  extraClosing : List Position
deriving DecidableEq, Repr

/-- The script's output, abstracted as a structure: `balanced` records which
of the two final messages is printed ("Braces are balanced." exactly when
the stack ends empty), `extraClosing` the positions printed by the
"Extra closing brace" branch in order, and `unclosed` the positions left on
the stack, in the order the final loop prints them. -/
structure Report where
  balanced : Bool
  extraClosing : List Position
  unclosed : List Position
deriving DecidableEq, Repr

/-- One character step of the scan loop of `check_braces.py`: `ch` is the
character at (1-based) line `l`, column `c`.  On `{` the position is appended
to the stack; on `}` with an empty stack an extra-closing finding is
recorded; on `}` otherwise `stack.pop()` removes the last element
(`List.dropLast`); all other characters are ignored. -/
def scanChar (s : ScanState) (l c : Nat) (ch : Char) : ScanState :=
  if ch = '\x7b' then
    { s with stack := s.stack ++ [⟨l, c⟩] }
  else if ch = '\x7d' then
    if s.stack = [] then
      { s with extraClosing := s.extraClosing ++ [⟨l, c⟩] }
    else
      { s with stack := s.stack.dropLast }
  else s

/-- The inner loop `for j, char in enumerate(line)`: scans the characters of
one line in order, `c` being the 1-based column of the first character. -/
def scanChars (l : Nat) : Nat → List Char → ScanState → ScanState
  | _, [], s => s
  | c, ch :: rest, s => scanChars l (c + 1) rest (scanChar s l c ch)

/-- The outer loop `for i, line in enumerate(lines)`: scans the lines in
order, `l` being the 1-based number of the first line; each line's characters
are scanned starting at column 1. -/
def scanLines : Nat → List (List Char) → ScanState → ScanState
  | _, [], s => s
  | l, line :: rest, s => scanLines (l + 1) rest (scanChars l 1 line s)

/-- The whole of `check_braces.py` on a given list of lines: run the scan
from an empty stack starting at line 1, then build the report.  The script's
final `if stack: ... else: print("Braces are balanced.")` makes the balanced
verdict depend on the final stack only. -/
def check (lines : List (List Char)) : Report :=
  let s := scanLines 1 lines { stack := [], extraClosing := [] }
  { balanced := s.stack.isEmpty, extraClosing := s.extraClosing, unclosed := s.stack }

/-- One scan step consuming a position-annotated character `(line, col, ch)`. -/
def stepT (s : ScanState) (t : Nat × Nat × Char) : ScanState :=
  scanChar s t.1 t.2.1 t.2.2

/-- The character stream of an input: every character annotated with its
1-based line and column, lines in order and columns in order within each
line, mirroring the two nested `enumerate` loops. -/
def enumStream (lines : List (List Char)) : List (Nat × Nat × Char) :=
  (lines.enum.map fun p => p.2.enum.map fun q => (p.1 + 1, q.1 + 1, q.2)).flatten

lemma scanChars_eq_foldl (l : Nat) (cs : List Char) : ∀ (j : Nat) (s : ScanState),
    scanChars l (j + 1) cs s =
      ((List.enumFrom j cs).map fun q => (l, q.1 + 1, q.2)).foldl stepT s := by
  induction cs with
  | nil => intro j s; rfl
  | cons ch rest ih =>
    intro j s
    simp only [scanChars, List.enumFrom, List.map_cons, List.foldl_cons]
    exact ih (j + 1) (scanChar s l (j + 1) ch)

lemma scanLines_eq_foldl (lines : List (List Char)) : ∀ (i : Nat) (s : ScanState),
    scanLines (i + 1) lines s =
      (((List.enumFrom i lines).map fun p =>
        p.2.enum.map fun q => (p.1 + 1, q.1 + 1, q.2)).flatten).foldl stepT s := by
  induction lines with
  | nil => intro i s; rfl
  | cons line rest ih =>
    intro i s
    simp only [scanLines, List.enumFrom, List.map_cons, List.flatten_cons, List.foldl_append]
    rw [show (1 : Nat) = 0 + 1 from rfl, scanChars_eq_foldl]
    exact ih (i + 1) _

/-- The scan of `check` is exactly a left fold of the per-character step over
the position-annotated character stream. -/
lemma scan_eq_foldl_enumStream (lines : List (List Char)) :
    scanLines 1 lines { stack := [], extraClosing := [] } =
      (enumStream lines).foldl stepT { stack := [], extraClosing := [] } := by
  rw [show (1 : Nat) = 0 + 1 from rfl, scanLines_eq_foldl]
  rfl

/-- The number of opening braces in a stream that are unmatched at its end,
starting from `d` already-unmatched openers: `{` adds one, `}` cancels the
most recent unmatched opener when one exists (`Nat` truncated subtraction
leaves `0` at `0`), everything else is ignored. -/
def unmatchedOpen (d : Nat) : List (Nat × Nat × Char) → Nat
  | [] => d
  | t :: rest =>
    if t.2.2 = '\x7b' then unmatchedOpen (d + 1) rest
    else if t.2.2 = '\x7d' then unmatchedOpen (d - 1) rest
    else unmatchedOpen d rest

/-- The number of closing braces in a stream that are matched (i.e. cancel a
pending opener), starting from `d` pending openers. -/
def matchedCount (d : Nat) : List (Nat × Nat × Char) → Nat
  | [] => 0
  | t :: rest =>
    if t.2.2 = '\x7b' then matchedCount (d + 1) rest
    else if t.2.2 = '\x7d' then
      if d = 0 then matchedCount 0 rest else matchedCount (d - 1) rest + 1
    else matchedCount d rest

/-- The number of closing braces in a stream that arrive with no pending
opener, starting from `d` pending openers. -/
def extraCount (d : Nat) : List (Nat × Nat × Char) → Nat
  | [] => 0
  | t :: rest =>
    if t.2.2 = '\x7b' then extraCount (d + 1) rest
    else if t.2.2 = '\x7d' then
      if d = 0 then extraCount 0 rest + 1 else extraCount (d - 1) rest
    else extraCount d rest

/-- Total number of `{` characters in the input. -/
def openCount (lines : List (List Char)) : Nat :=
  (lines.map fun cs => cs.count '\x7b').sum

/-- Total number of `}` characters in the input. -/
def closeCount (lines : List (List Char)) : Nat :=
  (lines.map fun cs => cs.count '\x7d').sum

lemma stepT_stack_length (s : ScanState) (t : Nat × Nat × Char) :
    ((stepT s t).stack).length =
      (if t.2.2 = '\x7b' then s.stack.length + 1
       else if t.2.2 = '\x7d' then s.stack.length - 1
       else s.stack.length) := by
  rcases t with ⟨l, c, ch⟩
  simp only [stepT, scanChar]
  split_ifs with h1 h2 h3 <;> simp_all [List.length_dropLast]

lemma foldl_stack_length (stream : List (Nat × Nat × Char)) : ∀ s : ScanState,
    (((stream.foldl stepT s).stack).length) = unmatchedOpen s.stack.length stream := by
  induction stream with
  | nil => intro s; rfl
  | cons t rest ih =>
    intro s
    simp only [List.foldl_cons, unmatchedOpen]
    rw [ih, stepT_stack_length]
    split_ifs <;> rfl

lemma foldl_extraClosing_length (stream : List (Nat × Nat × Char)) : ∀ s : ScanState,
    (((stream.foldl stepT s).extraClosing).length) =
      s.extraClosing.length + extraCount s.stack.length stream := by
  induction stream with
  | nil => intro s; simp [extraCount]
  | cons t rest ih =>
    intro s
    rcases t with ⟨l, c, ch⟩
    simp only [List.foldl_cons, extraCount]
    rw [ih, stepT_stack_length]
    by_cases h1 : ch = '\x7b'
    · simp [stepT, scanChar, h1]
    · by_cases h2 : ch = '\x7d'
      · rcases hs : s.stack with _ | ⟨p, st⟩
        · simp [stepT, scanChar, h1, h2, hs]
          omega
        · have hne : s.stack ≠ [] := by simp [hs]
          simp [stepT, scanChar, h1, h2, hs, hne, List.length_dropLast]
      · simp [stepT, scanChar, h1, h2]

lemma unmatchedOpen_cons_open (d l c : Nat) (rest : List (Nat × Nat × Char)) :
    unmatchedOpen d ((l, c, '\x7b') :: rest) = unmatchedOpen (d + 1) rest := rfl

lemma unmatchedOpen_cons_close (d l c : Nat) (rest : List (Nat × Nat × Char)) :
    unmatchedOpen d ((l, c, '\x7d') :: rest) = unmatchedOpen (d - 1) rest := rfl

lemma unmatchedOpen_cons_other (d l c : Nat) (rest : List (Nat × Nat × Char)) (ch : Char)
    (h1 : ¬ch = '\x7b') (h2 : ¬ch = '\x7d') :
    unmatchedOpen d ((l, c, ch) :: rest) = unmatchedOpen d rest := by
  simp [unmatchedOpen, h1, h2]

lemma matchedCount_cons_open (d l c : Nat) (rest : List (Nat × Nat × Char)) :
    matchedCount d ((l, c, '\x7b') :: rest) = matchedCount (d + 1) rest := rfl

lemma matchedCount_cons_close (d l c : Nat) (rest : List (Nat × Nat × Char)) :
    matchedCount d ((l, c, '\x7d') :: rest) =
      if d = 0 then matchedCount 0 rest else matchedCount (d - 1) rest + 1 := rfl

lemma matchedCount_cons_other (d l c : Nat) (rest : List (Nat × Nat × Char)) (ch : Char)
    (h1 : ¬ch = '\x7b') (h2 : ¬ch = '\x7d') :
    matchedCount d ((l, c, ch) :: rest) = matchedCount d rest := by
  simp [matchedCount, h1, h2]

lemma extraCount_cons_open (d l c : Nat) (rest : List (Nat × Nat × Char)) :
    extraCount d ((l, c, '\x7b') :: rest) = extraCount (d + 1) rest := rfl

lemma extraCount_cons_close (d l c : Nat) (rest : List (Nat × Nat × Char)) :
    extraCount d ((l, c, '\x7d') :: rest) =
      if d = 0 then extraCount 0 rest + 1 else extraCount (d - 1) rest := rfl

lemma extraCount_cons_other (d l c : Nat) (rest : List (Nat × Nat × Char)) (ch : Char)
    (h1 : ¬ch = '\x7b') (h2 : ¬ch = '\x7d') :
    extraCount d ((l, c, ch) :: rest) = extraCount d rest := by
  simp [extraCount, h1, h2]

/-- Accounting for opening braces: the `{`s of a stream either stay unmatched
at the end or are cancelled by a matched `}`. -/
lemma countP_open_eq (stream : List (Nat × Nat × Char)) : ∀ d : Nat,
    stream.countP (fun t => t.2.2 == '\x7b') + d =
      unmatchedOpen d stream + matchedCount d stream := by
  induction stream with
  | nil => intro d; simp [unmatchedOpen, matchedCount]
  | cons t rest ih =>
    intro d
    rcases t with ⟨l, c, ch⟩
    by_cases h1 : ch = '\x7b'
    · subst h1
      have h := ih (d + 1)
      rw [List.countP_cons_of_pos _ _ rfl, unmatchedOpen_cons_open, matchedCount_cons_open]
      omega
    · by_cases h2 : ch = '\x7d'
      · subst h2
        have h0 := ih 0
        have h3 := ih (d - 1)
        rw [List.countP_cons_of_neg _ _ (by simp), unmatchedOpen_cons_close,
          matchedCount_cons_close]
        by_cases hd : d = 0
        · subst hd; simp only [eq_self_iff_true, if_true, Nat.zero_sub]; omega
        · rw [if_neg hd]; omega
      · have h := ih d
        rw [List.countP_cons_of_neg _ _ (by simpa using h1),
          unmatchedOpen_cons_other _ _ _ _ _ h1 h2, matchedCount_cons_other _ _ _ _ _ h1 h2]
        omega

/-- Accounting for closing braces: every `}` of a stream is either matched by
a pending opener or arrives with none pending. -/
lemma countP_close_eq (stream : List (Nat × Nat × Char)) : ∀ d : Nat,
    stream.countP (fun t => t.2.2 == '\x7d') =
      matchedCount d stream + extraCount d stream := by
  induction stream with
  | nil => intro d; simp [matchedCount, extraCount]
  | cons t rest ih =>
    intro d
    rcases t with ⟨l, c, ch⟩
    by_cases h1 : ch = '\x7b'
    · subst h1
      have h := ih (d + 1)
      rw [List.countP_cons_of_neg _ _ (by simp), matchedCount_cons_open, extraCount_cons_open]
      omega
    · by_cases h2 : ch = '\x7d'
      · subst h2
        have h0 := ih 0
        have h3 := ih (d - 1)
        rw [List.countP_cons_of_pos _ _ rfl, matchedCount_cons_close, extraCount_cons_close]
        by_cases hd : d = 0
        · subst hd; simp only [eq_self_iff_true, if_true, Nat.zero_sub]; omega
        · rw [if_neg hd, if_neg hd]; omega
      · have h := ih d
        rw [List.countP_cons_of_neg _ _ (by simpa using h2),
          matchedCount_cons_other _ _ _ _ _ h1 h2, extraCount_cons_other _ _ _ _ _ h1 h2]
        omega

lemma countP_enumFrom {α : Type} (p : α → Bool) (l : List α) : ∀ n : Nat,
    (List.enumFrom n l).countP (fun q => p q.2) = l.countP p := by
  induction l with
  | nil => intro n; rfl
  | cons a as ih =>
    intro n
    simp only [List.enumFrom, List.countP_cons, ih]

lemma countP_line (c : Char) (i : Nat) (line : List Char) :
    List.countP (fun t => t.2.2 == c) (line.enum.map fun q => (i, q.1 + 1, q.2)) =
      line.count c := by
  rw [List.countP_map, List.count_eq_countP]
  exact countP_enumFrom (fun x => x == c) line 0

/-- Counting characters equal to `c` over the annotated stream agrees with
counting them line by line in the raw input. -/
lemma countP_char_enumStream (c : Char) (lines : List (List Char)) :
    (enumStream lines).countP (fun t => t.2.2 == c) =
      (lines.map fun cs => cs.count c).sum := by
  unfold enumStream
  rw [List.countP_flatten, List.map_map]
  have aux : ∀ (ls : List (List Char)) (i : Nat),
      (List.enumFrom i ls).map
          ((fun l => List.countP (fun t => t.2.2 == c) l) ∘ fun p =>
            p.2.enum.map fun q => (p.1 + 1, q.1 + 1, q.2)) =
        ls.map fun cs => cs.count c := by
    intro ls
    induction ls with
    | nil => intro i; rfl
    | cons line rest ihl =>
      intro i
      simp only [List.enumFrom, List.map_cons, Function.comp]
      rw [countP_line c (i + 1) line]
      rw [ihl (i + 1)]
  exact congrArg List.sum (aux lines 0)

/-- Strict line-major, then column-major order on positions. -/
def posLt (p q : Position) : Prop :=
  p.line < q.line ∨ (p.line = q.line ∧ p.col < q.col)

/-- Every position in `st` is strictly before line `l`, column `c`. -/
def stackBound (st : List Position) (l c : Nat) : Prop :=
  ∀ p ∈ st, posLt p ⟨l, c⟩

lemma posLt_mono_col {p : Position} {l c c' : Nat} (h : posLt p ⟨l, c⟩) (hc : c ≤ c') :
    posLt p ⟨l, c'⟩ := by
  rcases h with h | ⟨h, h'⟩
  · exact Or.inl h
  · exact Or.inr ⟨h, Nat.lt_of_lt_of_le h' hc⟩

lemma stackBound_mono {st : List Position} {l c c' : Nat} (h : stackBound st l c)
    (hc : c ≤ c') : stackBound st l c' :=
  fun p hp => posLt_mono_col (h p hp) hc

lemma stackBound_succLine {st : List Position} {l c c' : Nat} (h : stackBound st l c) :
    stackBound st (l + 1) c' := by
  intro p hp
  rcases h p hp with h' | ⟨h', _⟩
  · exact Or.inl (Nat.lt_succ_of_lt h')
  · exact Or.inl (h' ▸ Nat.lt_succ_self _)

lemma scanChar_sorted {s : ScanState} {l c : Nat} (ch : Char)
    (h1 : s.stack.Pairwise posLt) (h2 : stackBound s.stack l c) :
    (scanChar s l c ch).stack.Pairwise posLt ∧
      stackBound (scanChar s l c ch).stack l (c + 1) := by
  unfold scanChar
  split_ifs with hb hc he
  · constructor
    · rw [List.pairwise_append]
      exact ⟨h1, List.pairwise_singleton _ _,
        fun p hp q hq => (List.mem_singleton.mp hq) ▸ h2 p hp⟩
    · intro p hp
      rcases List.mem_append.mp hp with hp' | hp'
      · exact posLt_mono_col (h2 p hp') (Nat.le_succ c)
      · rw [List.mem_singleton.mp hp']
        exact Or.inr ⟨rfl, Nat.lt_succ_self c⟩
  · exact ⟨h1, stackBound_mono h2 (Nat.le_succ c)⟩
  · exact ⟨h1.sublist (List.dropLast_sublist _),
      fun p hp => posLt_mono_col (h2 p ((List.dropLast_sublist _).mem hp)) (Nat.le_succ c)⟩
  · exact ⟨h1, stackBound_mono h2 (Nat.le_succ c)⟩

lemma scanChars_sorted (l : Nat) (cs : List Char) : ∀ (c : Nat) (s : ScanState),
    s.stack.Pairwise posLt → stackBound s.stack l c →
    (scanChars l c cs s).stack.Pairwise posLt ∧
      stackBound (scanChars l c cs s).stack l (c + cs.length) := by
  induction cs with
  | nil => intro c s h1 h2; exact ⟨h1, h2⟩
  | cons ch rest ih =>
    intro c s h1 h2
    obtain ⟨h1', h2'⟩ := scanChar_sorted ch h1 h2
    obtain ⟨h1'', h2''⟩ := ih (c + 1) (scanChar s l c ch) h1' h2'
    refine ⟨h1'', ?_⟩
    have : c + 1 + rest.length = c + (rest.length + 1) := by omega
    simpa [List.length_cons, this] using h2''

lemma scanLines_sorted (lines : List (List Char)) : ∀ (l : Nat) (s : ScanState),
    s.stack.Pairwise posLt → stackBound s.stack l 1 →
    (scanLines l lines s).stack.Pairwise posLt := by
  induction lines with
  | nil => intro l s h1 _; exact h1
  | cons line rest ih =>
    intro l s h1 h2
    obtain ⟨h1', h2'⟩ := scanChars_sorted l line 1 s h1 h2
    exact ih (l + 1) _ h1' (stackBound_succLine h2')

/-- C1: `check` scans lines in order with 1-based line numbering and
characters within each line in order with 1-based column numbering (the scan
is the left fold of the per-character step over the annotated stream
`enumStream`, whose annotations are `(i + 1, j + 1)` for the 0-based indices
`i`, `j`); each `{` pushes `Position(line, column)` onto the stack, and each
`}` seen while the stack is non-empty (here `stack = st ++ [p]`, `p` the most
recently pushed entry) pops exactly that entry `p`, which is discarded. -/
theorem check_scan_order_push_pop (lines : List (List Char)) (l c : Nat)
    (s : ScanState) (st : List Position) (p : Position) (h : s.stack = st ++ [p]) :
    scanLines 1 lines { stack := [], extraClosing := [] } =
      (enumStream lines).foldl stepT { stack := [], extraClosing := [] }
    ∧ scanChar s l c '\x7b' = { s with stack := s.stack ++ [⟨l, c⟩] }
    ∧ scanChar s l c '\x7d' = { s with stack := st } := by
  refine ⟨scan_eq_foldl_enumStream lines, rfl, ?_⟩
  unfold scanChar
  rw [if_neg (by decide : ¬('\x7d' : Char) = '\x7b'), if_pos (rfl : ('\x7d' : Char) = '\x7d'),
    if_neg (by simp [h] : ¬s.stack = [])]
  rw [show s.stack.dropLast = st by rw [h]; exact List.dropLast_concat]

theorem check_scan_order_push_pop_witness :
    scanLines 1 [['\x7b', '\x7d']] { stack := [], extraClosing := [] } =
      (enumStream [['\x7b', '\x7d']]).foldl stepT { stack := [], extraClosing := [] }
    ∧ scanChar { stack := [⟨1, 1⟩], extraClosing := [] } 1 2 '\x7b' =
        { stack := [⟨1, 1⟩, ⟨1, 2⟩], extraClosing := [] }
    ∧ scanChar { stack := [⟨1, 1⟩], extraClosing := [] } 1 2 '\x7d' =
        { stack := [], extraClosing := [] } :=
  check_scan_order_push_pop [['\x7b', '\x7d']] 1 2
    { stack := [⟨1, 1⟩], extraClosing := [] } [] ⟨1, 1⟩ rfl

/-- C2, counterexample: on the single line `}` the script prints one
"Extra closing brace" finding and still ends with "Braces are balanced."
(the final verdict looks only at the stack), so the balanced flag is `true`
while `extraClosing` is non-empty — the claimed equivalence fails. -/
theorem balanced_iff_both_empty_cex :
    (check [['\x7d']]).balanced = true
    ∧ (check [['\x7d']]).extraClosing = [⟨1, 1⟩]
    ∧ (check [['\x7d']]).unclosed = []
    ∧ ¬((check [['\x7d']]).balanced = true ↔
        ((check [['\x7d']]).extraClosing = [] ∧ (check [['\x7d']]).unclosed = [])) := by
  decide

/-- C2, amended: the balanced flag is true iff the `unclosed` sequence is
empty; the `extraClosing` findings do not enter the final verdict. -/
theorem balanced_iff_unclosed_empty (lines : List (List Char)) :
    (check lines).balanced = true ↔ (check lines).unclosed = [] := by
  simp [check, List.isEmpty_iff]

/-- C3: after processing any prefix `p` of the character stream, the depth of
the brace stack equals the number of opening braces seen in `p` that are not
yet matched by a closing brace. -/
theorem stack_depth_eq_unmatchedOpen (lines : List (List Char))
    (p q : List (Nat × Nat × Char)) (h : enumStream lines = p ++ q) :
    ((p.foldl stepT { stack := [], extraClosing := [] }).stack).length =
      unmatchedOpen 0 p := by
  simpa using foldl_stack_length p { stack := [], extraClosing := [] }

theorem stack_depth_eq_unmatchedOpen_witness :
    ((([(1, 1, '\x7b'), (1, 2, 'a')] : List (Nat × Nat × Char)).foldl stepT
        { stack := [], extraClosing := [] }).stack).length =
      unmatchedOpen 0 [(1, 1, '\x7b'), (1, 2, 'a')] :=
  stack_depth_eq_unmatchedOpen [['\x7b', 'a', '\x7d']] [(1, 1, '\x7b'), (1, 2, 'a')]
    [(1, 3, '\x7d')] (by decide)

/-- C4: the `unclosed` list is strictly ascending in the line-major,
column-major order on positions.  Pushes append at the tail of the stack, so
this list is also exactly in the order the surviving entries were pushed,
earliest-opened first. -/
theorem unclosed_sorted (lines : List (List Char)) :
    (check lines).unclosed.Pairwise posLt := by
  have h := scanLines_sorted lines 1 { stack := [], extraClosing := [] }
    List.Pairwise.nil (fun p hp => absurd hp (List.not_mem_nil p))
  simpa [check] using h

/-- C5: the number of `{` characters in the input equals the length of the
`unclosed` list plus the number of matched `}` characters (those that caused
a pop); moreover every `}` is either matched — cancelling exactly one pushed
`{` — or recorded as an extra closing brace, so the `}` count splits into the
matched count plus the `extraClosing` length. -/
theorem open_close_accounting (lines : List (List Char)) :
    openCount lines =
      (check lines).unclosed.length + matchedCount 0 (enumStream lines)
    ∧ closeCount lines =
      matchedCount 0 (enumStream lines) + (check lines).extraClosing.length := by
  have hstack : (check lines).unclosed =
      ((enumStream lines).foldl stepT { stack := [], extraClosing := [] }).stack := by
    simp [check, scan_eq_foldl_enumStream]
  have hextra : (check lines).extraClosing =
      ((enumStream lines).foldl stepT { stack := [], extraClosing := [] }).extraClosing := by
    simp [check, scan_eq_foldl_enumStream]
  constructor
  · rw [hstack, foldl_stack_length]
    have h1 := countP_open_eq (enumStream lines) 0
    have h2 := countP_char_enumStream '\x7b' lines
    unfold openCount
    simp only [List.length_nil]
    omega
  · rw [hextra, foldl_extraClosing_length]
    have h1 := countP_close_eq (enumStream lines) 0
    have h2 := countP_char_enumStream '\x7d' lines
    unfold closeCount
    simp only [List.length_nil]
    omega

/-- C6: a `}` met while the stack is empty appends an extra-closing finding,
leaves the stack unchanged, and the scan continues normally on the rest of
the stream from that updated state. -/
theorem extraClosing_no_stack_mutation (l c : Nat) (s : ScanState)
    (rest : List (Nat × Nat × Char)) (h : s.stack = []) :
    scanChar s l c '\x7d' = { s with extraClosing := s.extraClosing ++ [⟨l, c⟩] }
    ∧ (scanChar s l c '\x7d').stack = s.stack
    ∧ List.foldl stepT s ((l, c, '\x7d') :: rest) =
        List.foldl stepT { s with extraClosing := s.extraClosing ++ [⟨l, c⟩] } rest := by
  have h1 : scanChar s l c '\x7d' =
      { s with extraClosing := s.extraClosing ++ [⟨l, c⟩] } := by
    simp [scanChar, h]
  refine ⟨h1, by rw [h1], ?_⟩
  simp only [List.foldl_cons]
  rw [show stepT s (l, c, '\x7d') = scanChar s l c '\x7d' from rfl, h1]

theorem extraClosing_no_stack_mutation_witness :
    scanChar { stack := [], extraClosing := [] } 1 1 '\x7d' =
        { stack := [], extraClosing := [⟨1, 1⟩] }
    ∧ (scanChar { stack := [], extraClosing := [] } 1 1 '\x7d').stack =
        ({ stack := [], extraClosing := [] } : ScanState).stack
    ∧ List.foldl stepT { stack := [], extraClosing := [] } [(1, 1, '\x7d')] =
        List.foldl stepT { stack := [], extraClosing := [⟨1, 1⟩] } [] :=
  extraClosing_no_stack_mutation 1 1 { stack := [], extraClosing := [] } [] rfl

/-- C7: `check` is a pure function of its input: it holds no state besides
the locally created stack and findings, so two runs on equal inputs yield
identical reports, component by component. -/
theorem check_deterministic (lines₁ lines₂ : List (List Char)) (h : lines₁ = lines₂) :
    check lines₁ = check lines₂
    ∧ (check lines₁).balanced = (check lines₂).balanced
    ∧ (check lines₁).extraClosing = (check lines₂).extraClosing
    ∧ (check lines₁).unclosed = (check lines₂).unclosed := by
  subst h
  exact ⟨rfl, rfl, rfl, rfl⟩

theorem check_deterministic_witness :
    check [['\x7b']] = check [['\x7b']]
    ∧ (check [['\x7b']]).balanced = (check [['\x7b']]).balanced
    ∧ (check [['\x7b']]).extraClosing = (check [['\x7b']]).extraClosing
    ∧ (check [['\x7b']]).unclosed = (check [['\x7b']]).unclosed :=
  check_deterministic [['\x7b']] [['\x7b']] rfl

/-- C8: the empty input yields the balanced report with both defect lists
empty. -/
theorem check_empty_balanced :
    check [] = { balanced := true, extraClosing := [], unclosed := [] } := rfl

end CheckBraces

namespace FixAppContext

/-- The literal broken block searched for by `fix_app_context.py`. -/
def broken_block : List Char :=
  "  \x7d, []);\n\x7d\n  \x7d, [selectedLanguage, snippetLength, snippetLevel, isLoadingSnippet, practiceMode, generalContentTypes]);".data

/-- The literal replacement block spliced in by `fix_app_context.py`. -/
def replacement_block : List Char :=
  "  \x7d, []);\n\n  const fetchNewSnippet = useCallback(async (mode: \x27code\x27 | \x27general\x27 | \x27targeted\x27 = practiceMode, targetedKeysOverride?: string[]) => \x7b\n    if (isLoadingSnippet) return;\n\n    setIsLoadingSnippet(true);\n    setSnippet(\x27\x27);\n    setSnippetError(null);\n    setIsCustomSession(false);\n    \n    // Clear targeted keys if switching away from targeted mode, unless we are starting a new targeted session\n    if (mode !== \x27targeted\x27) \x7b\n        setCurrentTargetedKeys([]);\n    \x7d\n\n    try \x7b\n      let newSnippet = \x27\x27;\n      if (mode === \x27code\x27) \x7b\n        newSnippet = await generateCodeSnippet(selectedLanguage, snippetLength, snippetLevel);\n      \x7d else if (mode === \x27targeted\x27) \x7b\n         const keys = targetedKeysOverride || currentTargetedKeys;\n         if (keys.length > 0) \x7b\n             newSnippet = await generateTargetedCodeSnippet(selectedLanguage, keys, snippetLength, snippetLevel);\n         \x7d else \x7b\n             // Fallback if no keys\n             newSnippet = await generateCodeSnippet(selectedLanguage, snippetLength, snippetLevel);\n         \x7d\n      \x7d else \x7b\n        newSnippet = await generateGeneralSnippet(snippetLength, snippetLevel, generalContentTypes);\n      \x7d\n      setSnippet(convertSpacesToTabs(newSnippet));\n      setSessionResetKey(prev => prev + 1);\n    \x7d catch (err) \x7b\n      const errorMessage = err instanceof Error ? err.message : \x27Failed to generate snippet. Please try again.\x27;\n      setSnippetError(errorMessage);\n      setSessionResetKey(prev => prev + 1);\n      console.error(err);\n    \x7d finally \x7b\n      setIsLoadingSnippet(false);\n    \x7d\n  \x7d, [selectedLanguage, snippetLength, snippetLevel, isLoadingSnippet, practiceMode, generalContentTypes, currentTargetedKeys]);".data

/-- Python's substring test `pat in content` on character lists. -/
def containsSub (pat : List Char) : List Char → Bool
  | [] => pat.isEmpty
  | c :: rest => pat.isPrefixOf (c :: rest) || containsSub pat rest

/-- Python's `str.replace(pat, rep)`: scan left to right and splice `rep` in
place of each non-overlapping occurrence of `pat`.  (An empty `pat` never
arises in this script; it is treated as having no occurrence.) -/
def replaceAll (pat rep : List Char) : List Char → List Char
  | [] => []
  | c :: rest =>
    if pat ≠ [] ∧ pat.isPrefixOf (c :: rest) then
      rep ++ replaceAll pat rep (rest.drop (pat.length - 1))
    else
      c :: replaceAll pat rep rest
termination_by l => l.length
decreasing_by
  · simp only [List.length_drop, List.length_cons]
    omega
  · simp only [List.length_cons]
    omega

/-- `fix_app_context.py` after reading the file content: when the broken
block occurs, the file is rewritten with every occurrence replaced
(`some newContent`); otherwise only diagnostics are printed and no write
happens (`none`). -/
def runFix (content : List Char) : Option (List Char) :=
  if containsSub broken_block content then
    some (replaceAll broken_block replacement_block content)
  else
    none

/-- The file content after the script ran: the written content when a write
happened, the original content otherwise. -/
def fileAfterFix (content : List Char) : List Char :=
  (runFix content).getD content

/-- C9: when the broken block is not a substring of the content, the script
takes the no-match branch, never writes the file, and the content is
unchanged. -/
theorem no_match_no_write (content : List Char)
    (h : containsSub broken_block content = false) :
    runFix content = none ∧ fileAfterFix content = content := by
  have h1 : runFix content = none := by
    simp [runFix, h]
  exact ⟨h1, by simp [fileAfterFix, h1]⟩

theorem no_match_no_write_witness :
    containsSub broken_block [] = false
    ∧ (runFix [] = none ∧ fileAfterFix [] = []) :=
  ⟨rfl, no_match_no_write [] rfl⟩

end FixAppContext

namespace RestoreAppContext

/-- Python's `str.strip()` on a character list: remove leading and trailing
whitespace. -/
def pyStrip (cs : List Char) : List Char :=
  (((cs.dropWhile Char.isWhitespace).reverse).dropWhile Char.isWhitespace).reverse

/-- The replacement block `new_code` of `restore_app_context.py`. -/
def new_code : List Char :=
  "  const fetchNewSnippet = useCallback(async (mode: \x27code\x27 | \x27general\x27 | \x27targeted\x27 = practiceMode, targetedKeysOverride?: string[]) => \x7b\n    if (isLoadingSnippet) return;\n\n    setIsLoadingSnippet(true);\n    setSnippet(\x27\x27);\n    setSnippetError(null);\n    setIsCustomSession(false);\n    \n    // Clear targeted keys if switching away from targeted mode, unless we are starting a new targeted session\n    if (mode !== \x27targeted\x27) \x7b\n        setCurrentTargetedKeys([]);\n    \x7d\n\n    try \x7b\n      let newSnippet = \x27\x27;\n      if (mode === \x27code\x27) \x7b\n        newSnippet = await generateCodeSnippet(selectedLanguage, snippetLength, snippetLevel);\n      \x7d else if (mode === \x27targeted\x27) \x7b\n         const keys = targetedKeysOverride || currentTargetedKeys;\n         if (keys.length > 0) \x7b\n             newSnippet = await generateTargetedCodeSnippet(selectedLanguage, keys, snippetLength, snippetLevel);\n         \x7d else \x7b\n             // Fallback if no keys\n             newSnippet = await generateCodeSnippet(selectedLanguage, snippetLength, snippetLevel);\n         \x7d\n      \x7d else \x7b\n        newSnippet = await generateGeneralSnippet(snippetLength, snippetLevel, generalContentTypes);\n      \x7d\n      setSnippet(convertSpacesToTabs(newSnippet));\n      setSessionResetKey(prev => prev + 1);\n    \x7d catch (err) \x7b\n      const errorMessage = err instanceof Error ? err.message : \x27Failed to generate snippet. Please try again.\x27;\n      setSnippetError(errorMessage);\n      setSessionResetKey(prev => prev + 1);\n      console.error(err);\n    \x7d finally \x7b\n      setIsLoadingSnippet(false);\n    \x7d\n  \x7d, [selectedLanguage, snippetLength, snippetLevel, isLoadingSnippet, practiceMode, generalContentTypes, currentTargetedKeys]);\n".data

/-- `restore_app_context.py` after reading the file as a list of lines.  The
script unconditionally evaluates `lines[294]`, `lines[295]` and `lines[296]`
(0-based); when any of them is out of range it raises an IndexError before
reaching the write (`none`).  Otherwise, when the stripped lines 296 and 297
(1-based) match the expected context it writes the patched line list, and on
a context mismatch it aborts without writing, leaving the file as it was. -/
def runRestore (lines : List (List Char)) : Option (List (List Char)) :=
  match lines[294]?, lines[295]?, lines[296]? with
  | some _, some l296, some l297 =>
    if pyStrip l296 = "\x7d".data ∧ ("\x7d, [selectedLanguage".data.isPrefixOf (pyStrip l297)) then
      some ((lines.set 295 []).set 296 (new_code ++ "\n".data))
    else
      some lines
  | _, _, _ => none

/-- C10: the script completes without an out-of-bounds indexing error
exactly when the file has at least 297 lines; equivalently, on any shorter
file the index access raises (modelled as `none`) before any write occurs. -/
theorem restore_indexing_safety (lines : List (List Char)) :
    ((runRestore lines).isSome = true ↔ 297 ≤ lines.length)
    ∧ (runRestore lines = none ↔ lines.length < 297) := by
  unfold runRestore
  rcases h294 : lines[294]? with _ | l294
  · have hlen : lines.length ≤ 294 := List.getElem?_eq_none_iff.mp h294
    have h296 : lines[296]? = none := List.getElem?_eq_none_iff.mpr (by omega)
    simp [h294, h296]
    omega
  · rcases h295 : lines[295]? with _ | l295
    · have hlen : lines.length ≤ 295 := List.getElem?_eq_none_iff.mp h295
      simp [h294, h295]
      omega
    · rcases h296 : lines[296]? with _ | l296
      · have hlen : lines.length ≤ 296 := List.getElem?_eq_none_iff.mp h296
        simp [h294, h295, h296]
        omega
      · have hlen : 296 < lines.length := by
          by_contra hc
          rw [List.getElem?_eq_none_iff.mpr (by omega)] at h296
          exact Option.noConfusion h296
        simp only [h294, h295, h296]
        constructor
        · constructor
          · intro _; omega
          · intro _
            split <;> simp
        · constructor
          · intro hnone
            split at hnone <;> exact Option.noConfusion hnone
          · intro hlt; omega
  
end RestoreAppContext
